import Mathlib

/-!
Verification development for the wildfire data-assembly pipeline in
`aps360_project_progress_code.py`.

The pipeline fetches satellite rasters from a remote catalog (Earth Engine),
maps categorical fire-detection codes to numeric weights, reduces image time
series, forces arrays to a fixed 350x350 grid, fuses channels, and assembles
(input, label) example pairs.  Remote, server-side behaviour (which images the
date filter selects, what spatial shape `sampleRectangle` returns, which pixels
are masked) is modelled by explicit parameters; everything the script computes
is embedded directly.

Numeric arrays are `List (List _)` (2-D) or `List (List (List _))`
(height x width x channel).  Server-side images are total functions from pixel
coordinates, since Earth Engine images are abstract rasters combined pointwise.
Floating-point arithmetic is modelled by `ℚ` (client-side array values) and `ℝ`
(geodesic trigonometry).
-/

namespace Wildfire

/-- A server-side raster of rational values, indexed by pixel coordinates. -/
abbrev QImage := ℕ → ℕ → ℚ

/-- A server-side raster of categorical codes (the `FireMask` band). -/
abbrev NImage := ℕ → ℕ → ℕ

/-- A client-side two-dimensional numpy-style array. -/
abbrev Grid2 := List (List ℚ)

/-- A client-side (height, width, channels) tensor. -/
abbrev Tensor3 := List (List (List ℚ))

/-- The array has exactly `h` rows, each of length `w`. -/
abbrev hasShape2 (g : Grid2) (h w : ℕ) : Prop :=
  g.length = h ∧ ∀ row ∈ g, row.length = w

/-- The tensor has exactly `h` rows of `w` cells of `c` channels each. -/
abbrev hasShape3 (t : Tensor3) (h w c : ℕ) : Prop :=
  t.length = h ∧ ∀ row ∈ t, row.length = w ∧ ∀ cell ∈ row, cell.length = c

/-- Element of a 2-D array at `(i, j)`, defaulting to `0` out of bounds. -/
def entryAt (g : Grid2) (i j : ℕ) : ℚ := (g.getD i []).getD j 0

/-- Element of a 3-D tensor at `(i, j, k)`, defaulting to `0` out of bounds. -/
def cellAt (t : Tensor3) (i j k : ℕ) : ℚ := ((t.getD i []).getD j []).getD k 0

/-- Source lines 126-132: per-cell weight computed by `assign_fire_confidence`;
`fire_mask.eq(4).multiply(0.5)` plus `eq(5).multiply(1)` plus
`eq(6).multiply(1)`, summed. -/
def assign_fire_confidence (code : ℕ) : ℚ :=
  (if code = 4 then 1 else 0) * (1 / 2)
    + (if code = 5 then 1 else 0) * 1
    + (if code = 6 then 1 else 0) * 1

/-- `assign_fire_confidence` applied to every cell of a `FireMask` image
(Earth Engine `eq`, `multiply`, `add` act pointwise). -/
def mapFireConfidence (img : NImage) : QImage :=
  fun i j => assign_fire_confidence (img i j)

/-- Pointwise maximum of two images (Earth Engine image algebra). -/
def imageMax (a b : QImage) : QImage := fun i j => max (a i j) (b i j)

/-- Pointwise sum of two images (Earth Engine image algebra). -/
def imageAdd (a b : QImage) : QImage := fun i j => a i j + b i j

/-- Source line 138: `ImageCollection.max()` -- per-pixel maximum over the
collection; an empty collection yields no image. -/
def collectionMax : List QImage → Option QImage
  | [] => none
  | g :: gs => some (gs.foldl imageMax g)

/-- Per-pixel sum over a collection, left fold as the server accumulates. -/
def collectionSum : List QImage → QImage
  | [] => fun _ _ => 0
  | g :: gs => gs.foldl imageAdd g

/-- Source line 58: `ImageCollection.mean()` -- per-pixel mean over the
collection; an empty collection yields no image. -/
def collectionMean (l : List QImage) : Option QImage :=
  if l.isEmpty then none
  else some (fun i j => collectionSum l i j / (l.length : ℚ))

/-- Source lines 78-81 and 147-150: `sampleRectangle(region, defaultValue=0)`.
The server chooses the sampled extent `h x w`; pixels with no data (`valid`
false) receive the default value `0`. -/
def sampleRect (img : QImage) (h w : ℕ) (valid : ℕ → ℕ → Bool) : Grid2 :=
  (List.range h).map fun i =>
    (List.range w).map fun j => if valid i j then img i j else 0

/-- Source lines 88 and 156: `np.resize(a, (h, w))` -- fill the target shape
row-major by cycling the flattened input; an empty input fills with zeros. -/
def np_resize (a : Grid2) (h w : ℕ) : Grid2 :=
  let flat := a.flatten
  (List.range h).map fun i =>
    (List.range w).map fun j =>
      if flat.isEmpty then 0 else flat.getD ((i * w + j) % flat.length) 0

/-- Source lines 87-88 and 155-156: keep the array if its shape is already
`(350, 350)`, otherwise force it there with `np.resize`. -/
def ensure_shape (a : Grid2) : Grid2 :=
  if a.length = 350 ∧ ∀ row ∈ a, row.length = 350 then a
  else np_resize a 350 350

/-- Source lines 91 and 159: `array[:, :, np.newaxis]` -- turn an `(h, w)`
array into an `(h, w, 1)` tensor. -/
def addAxis (g : Grid2) : Tensor3 := g.map fun row => row.map fun v => [v]

/-- PyTorch adaptive pooling window for output index `i`:
`[i*inSize/outSize, ceil((i+1)*inSize/outSize))`. -/
def adaptiveWindow (inSize outSize i : ℕ) : ℕ × ℕ :=
  (i * inSize / outSize, ((i + 1) * inSize + (outSize - 1)) / outSize)

/-- Source lines 27-40: `resize_tensor` with the default target `(350, 350)`.
The input is an `(h, w, 1)`-layout tensor; the permute/unsqueeze steps move it
to `(1, 1, h, w)`, `adaptive_avg_pool2d` averages each spatial window, and the
squeeze/permute steps move the result back to `(350, 350, c)` layout, so the
net effect per channel is spatial window averaging. -/
def resize_tensor (t : Tensor3) : Tensor3 :=
  let h := t.length
  let w := (t.getD 0 []).length
  let c := ((t.getD 0 []).getD 0 []).length
  (List.range 350).map fun i =>
    (List.range 350).map fun j =>
      let rwin := adaptiveWindow h 350 i
      let cwin := adaptiveWindow w 350 j
      let cnt : ℕ := (rwin.2 - rwin.1) * (cwin.2 - cwin.1)
      (List.range c).map fun k =>
        (((List.range (rwin.2 - rwin.1)).map fun di =>
            ((List.range (cwin.2 - cwin.1)).map fun dj =>
              cellAt t (rwin.1 + di) (cwin.1 + dj) k).sum).sum) / (cnt : ℚ)

/-- Source lines 180-182: `concat_tensors(tensor1, tensor2)` returns
`torch.cat((tensor2, tensor1), dim=2)` -- note the swapped order: the channels
of `tensor2` come first.  `torch.cat` requires equal spatial extents, on which
`zipWith` agrees with it. -/
def concat_tensors (tensor1 tensor2 : Tensor3) : Tensor3 :=
  List.zipWith (fun r2 r1 => List.zipWith (fun c2 c1 => c2 ++ c1) r2 r1)
    tensor2 tensor1

/-- Channel `k` of an `(h, w, c)` tensor, as the 2-D array `t[:, :, k]`. -/
def channel (t : Tensor3) (k : ℕ) : Grid2 :=
  t.map fun row => row.map fun cell => cell.getD k 0

/-- An error raised by the remote Earth Engine service (`ee.EEException`). -/
structure EEException where
  message : String

/-- Server-side state a vegetation fetch depends on: the date-filtered NDVI
image collection, the spatial extent `sampleRectangle` returns, and which
sampled pixels carry data. -/
structure VegRemote where
  collection : List QImage
  sh : ℕ
  sw : ℕ
  valid : ℕ → ℕ → Bool

/-- Server-side state a fire fetch depends on: the date-filtered `FireMask`
image collection, the sampled extent, and which pixels carry data. -/
structure FireRemote where
  collection : List NImage
  sh : ℕ
  sw : ℕ
  valid : ℕ → ℕ → Bool

/-- Source lines 55-96, success path of `get_vegetation_tensor`: mean-reduce
the NDVI series, sample with default `0`, force shape `(350, 350)`, add the
channel axis.  An empty collection makes the sample request fail server-side
(caught as an `EEException`), yielding `none`. -/
def veg_pipeline (r : VegRemote) : Option Tensor3 :=
  match collectionMean r.collection with
  | none => none
  | some reduced =>
      some (addAxis (ensure_shape (sampleRect reduced r.sh r.sw r.valid)))

/-- Source lines 42-100: `get_vegetation_tensor`.  The whole body sits in a
`try` block whose `except ee.EEException` handler returns `None`, so a remote
error is converted to the absent result. -/
def get_vegetation_tensor (remote : Except EEException VegRemote) :
    Option Tensor3 :=
  match remote with
  | .error _ => none
  | .ok r => veg_pipeline r

/-- Source lines 123-164, success path of `get_fire_probability_tensor`: map
`assign_fire_confidence` over the collection, max-reduce, sample with default
`0`, force shape `(350, 350)`, add the channel axis.  An empty collection makes
the sample request fail server-side (caught as an `EEException`). -/
def fire_pipeline (r : FireRemote) : Option Tensor3 :=
  match collectionMax (r.collection.map mapFireConfidence) with
  | none => none
  | some reduced =>
      some (addAxis (ensure_shape (sampleRect reduced r.sh r.sw r.valid)))

/-- Source lines 113-168: `get_fire_probability_tensor`, with its
`except ee.EEException` handler returning `None`. -/
def get_fire_probability_tensor (remote : Except EEException FireRemote) :
    Option Tensor3 :=
  match remote with
  | .error _ => none
  | .ok r => fire_pipeline r

/-- Source lines 187-192: `get_cnn_tensor` composes the two fetches with no
`None` check.  When the vegetation fetch returned `None`,
`resize_tensor(None)` raises an uncaught `AttributeError`; when the fire fetch
returned `None`, `torch.cat` with `None` raises an uncaught `TypeError`.  The
uncaught Python exception is modelled by `Except.error`. -/
def get_cnn_tensor (veg fire : Option Tensor3) : Except String Tensor3 :=
  match veg with
  | none => .error "AttributeError"
  | some v =>
      match fire with
      | none => .error "TypeError"
      | some f => .ok (concat_tensors f (resize_tensor v))

/-- Source lines 262-266: `get_next_day` parses a date, adds
`timedelta(days=1)` and re-formats; dates are modelled as day ordinals, so the
round-trip is `d + 1`. -/
def get_next_day (d : ℕ) : ℕ := d + 1

/-- Source line 277: one entry of the `tensors` batch --
`get_cnn_tensor(lat, lon, date, get_next_day(date))`.  The fetchers are
parameters returning `Option` (their `None`-or-tensor results). -/
def tensors_entry (V F : ℚ → ℚ → ℕ → ℕ → Option Tensor3)
    (lat lon : ℚ) (d : ℕ) : Except String Tensor3 :=
  get_cnn_tensor (V lat lon d (get_next_day d)) (F lat lon d (get_next_day d))

/-- Source line 278: one entry of the `labels` batch --
`get_cnn_tensor(lat, lon, get_next_day(date),
get_next_day(get_next_day(date)))[:, :, 1]`. -/
def labels_entry (V F : ℚ → ℚ → ℕ → ℕ → Option Tensor3)
    (lat lon : ℚ) (d : ℕ) : Except String Grid2 :=
  Except.map (fun t => channel t 1)
    (get_cnn_tensor
      (V lat lon (get_next_day d) (get_next_day (get_next_day d)))
      (F lat lon (get_next_day d) (get_next_day (get_next_day d))))

/-- Source lines 277-278: the list comprehension driving the batch.  Entries
are evaluated left to right and the first uncaught exception aborts the whole
comprehension; nothing is skipped and no skip count exists. -/
def batch_map {α β : Type} (f : α → Except String β) :
    List α → Except String (List β)
  | [] => .ok []
  | a :: l =>
      match f a with
      | .error e => .error e
      | .ok b => Except.map (fun bs => b :: bs) (batch_map f l)

/-- Source line 277: the full `tensors` batch over `(lat, lon, date)`
records. -/
def tensors_batch (V F : ℚ → ℚ → ℕ → ℕ → Option Tensor3)
    (records : List (ℚ × ℚ × ℕ)) : Except String (List Tensor3) :=
  batch_map (fun r => tensors_entry V F r.1 r.2.1 r.2.2) records

/-- Whether an `Except` computation finished without raising. -/
def exceptOk {ε α : Type} : Except ε α → Bool
  | .ok _ => true
  | .error _ => false

/-- A bounding box in degrees, `(lat_min, lat_max, lon_min, lon_max)`. -/
structure BBox where
  lat_min : ℝ
  lat_max : ℝ
  lon_min : ℝ
  lon_max : ℝ

/-- Source lines 44-49: the degree-formula bounding box around a center --
latitude half-width `half_km / 111.32`, longitude half-width
`half_km / (111.32 * cos(deg2rad(lat)))`. -/
noncomputable def compute_bbox (lat lon half_km : ℝ) : BBox :=
  { lat_min := lat - half_km / 111.32
    lat_max := lat + half_km / 111.32
    lon_min := lon - half_km / (111.32 * Real.cos (lat * Real.pi / 180))
    lon_max := lon + half_km / (111.32 * Real.cos (lat * Real.pi / 180)) }

/-- The region argument handed to Earth Engine: either
`ee.Geometry.Rectangle([lon_min, lat_min, lon_max, lat_max])` or
`ee.Geometry.Point(lon, lat).buffer(radius_m).bounds()`. -/
inductive EERegion where
  | rectangle (lon_min lat_min lon_max lat_max : ℝ)
  | bufferBounds (lon lat radius_m : ℝ)

/-- Source lines 44-52: the vegetation query region is the degree-formula
rectangle with half-side 175 km. -/
noncomputable def vegetation_aoi (lat lon : ℝ) : EERegion :=
  let b := compute_bbox lat lon 175
  .rectangle b.lon_min b.lat_min b.lon_max b.lat_max

/-- Source line 120: the fire query region is the bounds of a 175 km
(175000 m) buffer around the center point. -/
def fire_aoi (lat lon : ℝ) : EERegion :=
  .bufferBounds lon lat (175 * 1000)

/-- The value set `{0, 1/2, 1}` that mapped fire-confidence weights live in. -/
abbrev unitVals (q : ℚ) : Prop := q = 0 ∨ q = 1 / 2 ∨ q = 1

/-- Vegetation fetcher for the C1 counterexample: the fetch fails (absent
result). -/
def c1VegFetch : ℚ → ℚ → ℕ → ℕ → Option Tensor3 := fun _ _ _ _ => none

/-- Fire fetcher for the C1 counterexample, always succeeding. -/
def c1FireFetch : ℚ → ℚ → ℕ → ℕ → Option Tensor3 := fun _ _ _ _ => some [[[0]]]

/-- Fire image for the C4 witness: constant code 5 (nominal confidence). -/
def c4FireImg : NImage := fun _ _ => 5

/-- Vegetation image for the C4 witness: constant NDVI value 3. -/
def c4VegImg : QImage := fun _ _ => 3

/-- The reduced image the fire reducer produces for the C4 witness. -/
def c4R : QImage := (collectionMax ([c4FireImg].map mapFireConfidence)).getD (fun _ _ => 0)

/-- The reduced image the vegetation reducer produces for the C4 witness. -/
def c4V : QImage := (collectionMean [c4VegImg]).getD (fun _ _ => 0)

/-- Successful fetch result used by the C6 witness: a 350x350x1 tensor built
by the shape-forcing path from an empty sampled array. -/
def c6Tensor : Tensor3 := addAxis (ensure_shape [])

/-- Vegetation fetcher for the C6 witness, always succeeding. -/
def c6V : ℚ → ℚ → ℕ → ℕ → Option Tensor3 := fun _ _ _ _ => some c6Tensor

/-- Fire fetcher for the C6 witness, always succeeding. -/
def c6F : ℚ → ℚ → ℕ → ℕ → Option Tensor3 := fun _ _ _ _ => some c6Tensor

/-- Remote vegetation state for the C7 witness: a one-image series with an
under-sized 2x3 sampled extent, so the shape correction is exercised. -/
def c7Veg : VegRemote := ⟨[fun _ _ => 0], 2, 3, fun _ _ => true⟩

/-- Remote fire state for the C7 witness, with a 4x1 sampled extent. -/
def c7Fire : FireRemote := ⟨[fun _ _ => 5], 4, 1, fun _ _ => true⟩

/-- The tensor the vegetation pipeline produces for the C7 witness state. -/
def c7VT : Tensor3 := (veg_pipeline c7Veg).getD []

/-- The tensor the fire pipeline produces for the C7 witness state. -/
def c7FT : Tensor3 := (fire_pipeline c7Fire).getD []

/-- Remote fire state for the C10 witness: one constant-code-4 image. -/
def c10Fire : FireRemote := ⟨[fun _ _ => 4], 3, 3, fun _ _ => true⟩

/-- The tensor the fire pipeline produces for the C10 witness state. -/
def c10T : Tensor3 := (fire_pipeline c10Fire).getD []

/-! ### Helper lemmas -/

theorem exceptOk_map {α β : Type} (f : α → β) (x : Except String α) :
    exceptOk (Except.map f x) = exceptOk x := by
  cases x <;> rfl

theorem batch_map_not_ok {α β : Type} {f : α → Except String β} {a : α} :
    ∀ {l : List α}, a ∈ l → exceptOk (f a) = false →
      exceptOk (batch_map f l) = false := by
  intro l
  induction l with
  | nil => intro h _; exact absurd h (List.not_mem_nil a)
  | cons b t ih =>
      intro ha hfa
      rcases List.mem_cons.mp ha with h | h
      · subst h
        simp only [batch_map]
        cases hfb : f a with
        | error e => simp [exceptOk]
        | ok v => rw [hfb] at hfa; simp [exceptOk] at hfa
      · simp only [batch_map]
        cases hfb : f b with
        | error e => simp [exceptOk]
        | ok v => simpa [exceptOk_map] using ih h hfa

theorem tensors_entry_not_ok {V F : ℚ → ℚ → ℕ → ℕ → Option Tensor3}
    {lat lon : ℚ} {d : ℕ}
    (h : V lat lon d (get_next_day d) = none ∨
         F lat lon d (get_next_day d) = none) :
    exceptOk (tensors_entry V F lat lon d) = false := by
  unfold tensors_entry get_cnn_tensor
  rcases h with h | h
  · rw [h]; rfl
  · rw [h]; cases V lat lon d (get_next_day d) <;> rfl

theorem hasShape2_sampleRect (img : QImage) (h w : ℕ) (valid : ℕ → ℕ → Bool) :
    hasShape2 (sampleRect img h w valid) h w := by
  refine ⟨by simp [sampleRect], ?_⟩
  intro row hrow
  simp only [sampleRect, List.mem_map] at hrow
  obtain ⟨i, -, rfl⟩ := hrow
  simp

theorem hasShape2_np_resize (a : Grid2) (h w : ℕ) :
    hasShape2 (np_resize a h w) h w := by
  refine ⟨by simp [np_resize], ?_⟩
  intro row hrow
  simp only [np_resize, List.mem_map] at hrow
  obtain ⟨i, -, rfl⟩ := hrow
  simp

theorem hasShape2_ensure_shape (a : Grid2) :
    hasShape2 (ensure_shape a) 350 350 := by
  unfold ensure_shape
  split_ifs with hc
  · exact hc
  · exact hasShape2_np_resize a 350 350

theorem hasShape3_addAxis {g : Grid2} {h w : ℕ} (hg : hasShape2 g h w) :
    hasShape3 (addAxis g) h w 1 := by
  obtain ⟨hlen, hrows⟩ := hg
  refine ⟨by simp [addAxis, hlen], ?_⟩
  intro row hrow
  simp only [addAxis, List.mem_map] at hrow
  obtain ⟨r, hr, rfl⟩ := hrow
  refine ⟨by simp [hrows r hr], ?_⟩
  intro cell hcell
  simp only [List.mem_map] at hcell
  obtain ⟨v, -, rfl⟩ := hcell
  rfl

theorem hasShape3_resize_tensor (t : Tensor3) :
    hasShape3 (resize_tensor t) 350 350 ((t.getD 0 []).getD 0 []).length := by
  refine ⟨by simp [resize_tensor], ?_⟩
  intro row hrow
  simp only [resize_tensor, List.mem_map, List.mem_range] at hrow
  obtain ⟨i, -, rfl⟩ := hrow
  refine ⟨by simp, ?_⟩
  intro cell hcell
  simp only [List.mem_map, List.mem_range] at hcell
  obtain ⟨j, -, rfl⟩ := hcell
  simp

theorem first_cell_length {t : Tensor3} {h w c : ℕ} (ht : hasShape3 t h w c)
    (hh : 0 < h) (hw : 0 < w) : ((t.getD 0 []).getD 0 []).length = c := by
  obtain ⟨hlen, hrows⟩ := ht
  have h0 : 0 < t.length := by omega
  rw [List.getD_eq_getElem t [] h0]
  obtain ⟨hrlen, hcells⟩ := hrows _ (List.getElem_mem h0)
  have h1 : 0 < t[0].length := by omega
  rw [List.getD_eq_getElem _ [] h1]
  exact hcells _ (List.getElem_mem h1)

theorem hasShape3_concat {A B : Tensor3} {h w cA cB : ℕ}
    (hA : hasShape3 A h w cA) (hB : hasShape3 B h w cB) :
    hasShape3 (concat_tensors A B) h w (cB + cA) := by
  obtain ⟨hAlen, hArows⟩ := hA
  obtain ⟨hBlen, hBrows⟩ := hB
  refine ⟨by simp [concat_tensors, hAlen, hBlen], ?_⟩
  intro row hrow
  rw [List.mem_iff_getElem] at hrow
  obtain ⟨i, hi, rfl⟩ := hrow
  have hiB : i < B.length := by
    simp [concat_tensors] at hi; omega
  have hiA : i < A.length := by
    simp [concat_tensors] at hi; omega
  obtain ⟨hBW, hBcell⟩ := hBrows _ (List.getElem_mem hiB)
  obtain ⟨hAW, hAcell⟩ := hArows _ (List.getElem_mem hiA)
  simp only [concat_tensors, List.getElem_zipWith]
  refine ⟨by simp [hBW, hAW], ?_⟩
  intro cell hcell
  rw [List.mem_iff_getElem] at hcell
  obtain ⟨j, hj, rfl⟩ := hcell
  have hjB : j < B[i].length := by
    simp at hj; omega
  have hjA : j < A[i].length := by
    simp at hj; omega
  simp only [List.getElem_zipWith, List.length_append]
  rw [hBcell _ (List.getElem_mem hjB), hAcell _ (List.getElem_mem hjA)]

theorem channel_concat_of_lt {A B : Tensor3} {h w cA cB : ℕ}
    (hA : hasShape3 A h w cA) (hB : hasShape3 B h w cB) {k : ℕ}
    (hk : k < cB) :
    channel (concat_tensors A B) k = channel B k := by
  obtain ⟨hAlen, hArows⟩ := hA
  obtain ⟨hBlen, hBrows⟩ := hB
  apply List.ext_getElem
  · simp [channel, concat_tensors, hAlen, hBlen]
  intro i h1 h2
  have hiB : i < B.length := by
    simp [channel] at h2; omega
  have hiA : i < A.length := by
    simp [channel, concat_tensors, hAlen, hBlen] at h1; omega
  obtain ⟨hBW, hBcell⟩ := hBrows _ (List.getElem_mem hiB)
  obtain ⟨hAW, hAcell⟩ := hArows _ (List.getElem_mem hiA)
  simp only [channel, List.getElem_map, concat_tensors, List.getElem_zipWith]
  apply List.ext_getElem
  · simp [hBW, hAW]
  intro j j1 j2
  have hjB : j < B[i].length := by
    simp at j2; omega
  have hjA : j < A[i].length := by
    simp [hBW, hAW] at j1; omega
  simp only [List.getElem_map, List.getElem_zipWith]
  exact List.getD_append _ _ _ _
    (by rw [hBcell _ (List.getElem_mem hjB)]; exact hk)

theorem channel_concat_add {A B : Tensor3} {h w cA cB : ℕ}
    (hA : hasShape3 A h w cA) (hB : hasShape3 B h w cB) (k : ℕ) :
    channel (concat_tensors A B) (cB + k) = channel A k := by
  obtain ⟨hAlen, hArows⟩ := hA
  obtain ⟨hBlen, hBrows⟩ := hB
  apply List.ext_getElem
  · simp [channel, concat_tensors, hAlen, hBlen]
  intro i h1 h2
  have hiB : i < B.length := by
    simp [channel, concat_tensors, hAlen, hBlen] at h1; omega
  have hiA : i < A.length := by
    simp [channel] at h2; omega
  obtain ⟨hBW, hBcell⟩ := hBrows _ (List.getElem_mem hiB)
  obtain ⟨hAW, hAcell⟩ := hArows _ (List.getElem_mem hiA)
  simp only [channel, List.getElem_map, concat_tensors, List.getElem_zipWith]
  apply List.ext_getElem
  · simp [hBW, hAW]
  intro j j1 j2
  have hjB : j < B[i].length := by
    simp [hBW, hAW] at j1; omega
  have hjA : j < A[i].length := by
    simp at j2; omega
  simp only [List.getElem_map, List.getElem_zipWith]
  have hlenB : (B[i])[j].length = cB := hBcell _ (List.getElem_mem hjB)
  rw [List.getD_append_right _ _ _ _ (by rw [hlenB]; omega), hlenB]
  simp

/-! ### Claims -/

/-- C3: for every cell of the categorical fire-detection band, independently
of the other cells, `assign_fire_confidence` produces weight 1/2 when the code
is 4, weight 1 when the code is 5 or 6, and weight 0 for every other code. -/
theorem C3_fire_confidence_mapping (img : NImage) (i j : ℕ) :
    mapFireConfidence img i j =
      if img i j = 4 then (1 / 2 : ℚ)
      else if img i j = 5 then 1
      else if img i j = 6 then 1
      else 0 := by
  simp only [mapFireConfidence, assign_fire_confidence]
  split_ifs <;> simp_all

/-- C5: when the remote raster service raises an error, both fetch functions
catch it and return the explicit absent result `none`; the error is not
propagated to the caller. -/
theorem C5_remote_error_yields_none (e : EEException) :
    get_vegetation_tensor (Except.error e) = none ∧
    get_fire_probability_tensor (Except.error e) = none :=
  ⟨rfl, rfl⟩

/-- C8 counterexample: at the reference center, the region the fire query
passes to the service is not the degree-formula bounding box the vegetation
query passes -- the fire query uses the bounds of a 175 km point buffer. -/
theorem C8_counterexample :
    fire_aoi 43.6619 (-79.3962) ≠ vegetation_aoi 43.6619 (-79.3962) :=
  fun h => EERegion.noConfusion h

/-- C8 amended: only the vegetation query region is the degree-formula
bounding box (latitude half-width `175 / 111.32`, longitude half-width
`175 / (111.32 * cos lat)`); the fire query region is the bounds of a
175000 m buffer around the center and is not a degree-formula rectangle at
all. -/
theorem C8_amended_fire_region_not_degree_box (lat lon : ℝ) :
    vegetation_aoi lat lon =
      EERegion.rectangle
        (lon - 175 / (111.32 * Real.cos (lat * Real.pi / 180)))
        (lat - 175 / 111.32)
        (lon + 175 / (111.32 * Real.cos (lat * Real.pi / 180)))
        (lat + 175 / 111.32) ∧
    ∀ a b c d, fire_aoi lat lon ≠ EERegion.rectangle a b c d :=
  ⟨rfl, fun _ _ _ _ h => EERegion.noConfusion h⟩

/-- C2 counterexample: fusing the 1x1 single-channel grids `A = [[1]]` and
`B = [[2]]` in the order `(A, B)` puts `B`, not `A`, in channel 0. -/
theorem C2_counterexample :
    channel (concat_tensors [[[(1 : ℚ)]]] [[[(2 : ℚ)]]]) 0 ≠ [[(1 : ℚ)]] := by
  decide

/-- C1 counterexample: with a failing vegetation fetch, batch assembly over a
single record aborts with the uncaught exception from `resize_tensor(None)` --
the record is not skipped and no output sequence is produced. -/
theorem C1_counterexample :
    tensors_batch c1VegFetch c1FireFetch [(0, 0, 0)] =
      Except.error "AttributeError" := rfl

/-- C1 amended: if either underlying fetch for some record returns the absent
result, `get_cnn_tensor` raises an uncaught exception, so the whole batch
assembly crashes; the record is never skipped and no count of skipped records
exists. -/
theorem C1_amended_failed_fetch_crashes
    (V F : ℚ → ℚ → ℕ → ℕ → Option Tensor3) (records : List (ℚ × ℚ × ℕ))
    (r : ℚ × ℚ × ℕ) (hr : r ∈ records)
    (hfail : V r.1 r.2.1 r.2.2 (get_next_day r.2.2) = none ∨
             F r.1 r.2.1 r.2.2 (get_next_day r.2.2) = none) :
    exceptOk (tensors_batch V F records) = false :=
  batch_map_not_ok hr (tensors_entry_not_ok hfail)

/-- C1 witness: the amended theorem applied to a concrete one-record batch
whose vegetation fetch fails. -/
theorem C1_witness :
    exceptOk (tensors_batch c1VegFetch c1FireFetch [(0, 0, 0)]) = false :=
  C1_amended_failed_fetch_crashes c1VegFetch c1FireFetch [(0, 0, 0)] (0, 0, 0)
    (List.mem_singleton.mpr rfl) (Or.inl rfl)

theorem hasShape2_channel {t : Tensor3} {h w c : ℕ} (ht : hasShape3 t h w c)
    (k : ℕ) : hasShape2 (channel t k) h w := by
  obtain ⟨hlen, hrows⟩ := ht
  refine ⟨by simp [channel, hlen], ?_⟩
  intro row hrow
  simp only [channel, List.mem_map] at hrow
  obtain ⟨r, hr, rfl⟩ := hrow
  simp [(hrows r hr).1]

theorem hasShape3_resize_of_single {t : Tensor3} (ht : hasShape3 t 350 350 1) :
    hasShape3 (resize_tensor t) 350 350 1 := by
  have h1 := hasShape3_resize_tensor t
  rwa [first_cell_length ht (by norm_num) (by norm_num)] at h1

/-- C2 amended: `concat_tensors` concatenates in the reversed argument order:
for same-shape single-channel grids `A` and `B`, fusing in the order `(A, B)`
puts `B` in channel 0 and `A` in channel 1. -/
theorem C2_amended_fuse_order_reversed {A B : Tensor3} {h w : ℕ}
    (hA : hasShape3 A h w 1) (hB : hasShape3 B h w 1) :
    channel (concat_tensors A B) 0 = channel B 0 ∧
    channel (concat_tensors A B) 1 = channel A 0 := by
  refine ⟨channel_concat_of_lt hA hB (by omega), ?_⟩
  simpa using channel_concat_add hA hB 0

/-- C2 witness: the amended theorem applied to the concrete 1x1 grids `[[1]]`
and `[[2]]`. -/
theorem C2_witness :
    hasShape3 [[[(1 : ℚ)]]] 1 1 1 ∧
    channel (concat_tensors [[[(1 : ℚ)]]] [[[(2 : ℚ)]]]) 0 =
      channel [[[(2 : ℚ)]]] 0 := by
  refine ⟨by decide, ?_⟩
  exact (C2_amended_fuse_order_reversed (A := [[[(1 : ℚ)]]])
    (B := [[[(2 : ℚ)]]]) (h := 1) (w := 1) (by decide) (by decide)).1

/-- C6: the input window is `[d, d+1)` and the label window `[d+1, d+2)`,
each end computed by adding one day, and when the label-window fetches succeed
the assembled label equals the fire-confidence grid fetched for the label
window (channel 1 of the fused tensor is the fire channel, not the vegetation
channel). -/
theorem C6_label_is_fire_grid_next_day
    (V F : ℚ → ℚ → ℕ → ℕ → Option Tensor3) (lat lon : ℚ) (d : ℕ)
    (vt ft : Tensor3)
    (hV : V lat lon (get_next_day d) (get_next_day (get_next_day d)) = some vt)
    (hF : F lat lon (get_next_day d) (get_next_day (get_next_day d)) = some ft)
    (hvt : hasShape3 vt 350 350 1) (hft : hasShape3 ft 350 350 1) :
    get_next_day d = d + 1 ∧
    tensors_entry V F lat lon d =
      get_cnn_tensor (V lat lon d (d + 1)) (F lat lon d (d + 1)) ∧
    labels_entry V F lat lon d = Except.ok (channel ft 0) := by
  refine ⟨rfl, rfl, ?_⟩
  have hch : channel (concat_tensors ft (resize_tensor vt)) 1 = channel ft 0 := by
    simpa using channel_concat_add hft (hasShape3_resize_of_single hvt) 0
  have hlab : labels_entry V F lat lon d =
      Except.ok (channel (concat_tensors ft (resize_tensor vt)) 1) := by
    unfold labels_entry
    rw [hV, hF]; rfl
  rw [hlab, hch]

/-- C6 witness: the theorem applied to concrete fetchers and date `0`. -/
theorem C6_witness :
    c6F 0 0 (get_next_day 0) (get_next_day (get_next_day 0)) = some c6Tensor ∧
    labels_entry c6V c6F 0 0 0 = Except.ok (channel c6Tensor 0) := by
  refine ⟨rfl, ?_⟩
  exact (C6_label_is_fire_grid_next_day c6V c6F 0 0 0 c6Tensor c6Tensor rfl rfl
    (hasShape3_addAxis (hasShape2_ensure_shape []))
    (hasShape3_addAxis (hasShape2_ensure_shape []))).2.2

/-- C7: `ensure_shape` forces every sampled array to exactly 350x350
regardless of the shape the remote source returned; hence every successful
fetch yields a 350x350x1 tensor, the fused input is 350x350x2, and the
extracted label is 350x350. -/
theorem C7_fixed_grid_shapes (vr : VegRemote) (fr : FireRemote)
    (vt ft : Tensor3)
    (hv : veg_pipeline vr = some vt) (hf : fire_pipeline fr = some ft) :
    (∀ a : Grid2, hasShape2 (ensure_shape a) 350 350) ∧
    hasShape3 vt 350 350 1 ∧ hasShape3 ft 350 350 1 ∧
    hasShape3 (concat_tensors ft (resize_tensor vt)) 350 350 2 ∧
    hasShape2 (channel (concat_tensors ft (resize_tensor vt)) 1) 350 350 := by
  have hvt : hasShape3 vt 350 350 1 := by
    unfold veg_pipeline at hv
    cases hm : collectionMean vr.collection with
    | none => rw [hm] at hv; exact absurd hv (by simp)
    | some reduced =>
        rw [hm] at hv
        cases hv
        exact hasShape3_addAxis (hasShape2_ensure_shape _)
  have hft : hasShape3 ft 350 350 1 := by
    unfold fire_pipeline at hf
    cases hm : collectionMax (fr.collection.map mapFireConfidence) with
    | none => rw [hm] at hf; exact absurd hf (by simp)
    | some reduced =>
        rw [hm] at hf
        cases hf
        exact hasShape3_addAxis (hasShape2_ensure_shape _)
  have hcc : hasShape3 (concat_tensors ft (resize_tensor vt)) 350 350 2 := by
    simpa using hasShape3_concat hft (hasShape3_resize_of_single hvt)
  exact ⟨hasShape2_ensure_shape, hvt, hft, hcc, hasShape2_channel hcc 1⟩

/-- C7 witness: the theorem applied to concrete remote states whose sampled
arrays are not 350x350. -/
theorem C7_witness :
    veg_pipeline c7Veg = some c7VT ∧ fire_pipeline c7Fire = some c7FT ∧
    hasShape3 (concat_tensors c7FT (resize_tensor c7VT)) 350 350 2 := by
  refine ⟨rfl, rfl, ?_⟩
  exact (C7_fixed_grid_shapes c7Veg c7Fire c7VT c7FT rfl rfl).2.2.2.1

theorem foldl_imageMax_apply (gs : List QImage) (g : QImage) (i j : ℕ) :
    (gs.foldl imageMax g) i j = (gs.map fun x => x i j).foldl max (g i j) := by
  induction gs generalizing g with
  | nil => rfl
  | cons b t ih =>
      simp only [List.foldl_cons, List.map_cons]
      exact ih (imageMax g b)

theorem foldl_imageAdd_apply (gs : List QImage) (g : QImage) (i j : ℕ) :
    (gs.foldl imageAdd g) i j = g i j + (gs.map fun x => x i j).sum := by
  induction gs generalizing g with
  | nil => simp
  | cons b t ih =>
      simp only [List.foldl_cons, List.map_cons, List.sum_cons]
      rw [ih (imageAdd g b)]
      show g i j + b i j + _ = _
      ring

theorem collectionSum_apply (l : List QImage) (i j : ℕ) :
    collectionSum l i j = (l.map fun g => g i j).sum := by
  cases l with
  | nil => simp [collectionSum]
  | cons g gs =>
      simp only [collectionSum, List.map_cons, List.sum_cons]
      exact foldl_imageAdd_apply gs g i j

theorem collectionMax_fire_apply (g : NImage) (gs : List NImage) (i j : ℕ) :
    ((gs.map mapFireConfidence).foldl imageMax (mapFireConfidence g)) i j =
      (gs.map fun x => assign_fire_confidence (x i j)).foldl max
        (assign_fire_confidence (g i j)) := by
  rw [foldl_imageMax_apply, List.map_map]
  rfl

theorem foldl_max_mem (a : ℚ) (l : List ℚ) : l.foldl max a ∈ a :: l := by
  induction l generalizing a with
  | nil => simp
  | cons b t ih =>
      simp only [List.foldl_cons]
      rcases List.mem_cons.mp (ih (max a b)) with h | h
      · rcases max_choice a b with hm | hm
        · rw [h, hm]; exact List.mem_cons_self _ _
        · rw [h, hm]; exact List.mem_cons_of_mem _ (List.mem_cons_self _ _)
      · exact List.mem_cons_of_mem _ (List.mem_cons_of_mem _ h)

theorem le_foldl_max (a : ℚ) (l : List ℚ) :
    ∀ x ∈ a :: l, x ≤ l.foldl max a := by
  induction l generalizing a with
  | nil => intro x hx; simp at hx; simp [hx]
  | cons b t ih =>
      intro x hx
      simp only [List.foldl_cons]
      rcases List.mem_cons.mp hx with rfl | hx'
      · exact le_trans (le_max_left x b)
          (ih (max x b) _ (List.mem_cons_self _ _))
      · rcases List.mem_cons.mp hx' with rfl | hx''
        · exact le_trans (le_max_right a x)
            (ih (max a x) _ (List.mem_cons_self _ _))
        · exact ih (max a b) x (List.mem_cons_of_mem _ hx'')

theorem assign_mem_unitVals (c : ℕ) : unitVals (assign_fire_confidence c) := by
  unfold assign_fire_confidence unitVals
  split_ifs <;> first | omega | norm_num

/-- C4: the fire pipeline applies the code-to-weight mapping to each image
before reduction and reduces with the per-pixel maximum of the mapped weights
(the reduced cell is the greatest of the mapped values), the vegetation
pipeline reduces the raw series with the per-pixel mean (sum over count), and
the mapped maximum differs from mapping the maximum of raw codes. -/
theorem C4_map_before_reduce
    (fl : List NImage) (vl : List QImage) (r v : QImage)
    (hr : collectionMax (fl.map mapFireConfidence) = some r)
    (hv : collectionMean vl = some v) :
    (∀ i j, r i j ∈ fl.map (fun g => assign_fire_confidence (g i j)) ∧
      ∀ g ∈ fl, assign_fire_confidence (g i j) ≤ r i j) ∧
    (∀ i j, v i j * (vl.length : ℚ) = (vl.map fun g => g i j).sum) ∧
    max (assign_fire_confidence 6) (assign_fire_confidence 9) ≠
      assign_fire_confidence (max 6 9) := by
  refine ⟨?_, ?_, by norm_num [assign_fire_confidence]⟩
  · cases fl with
    | nil => simp [collectionMax] at hr
    | cons g gs =>
        simp only [List.map_cons, collectionMax, Option.some.injEq] at hr
        subst hr
        intro i j
        rw [collectionMax_fire_apply]
        constructor
        · simpa using foldl_max_mem (assign_fire_confidence (g i j))
            (gs.map fun x => assign_fire_confidence (x i j))
        · intro x hx
          rcases List.mem_cons.mp hx with rfl | hx'
          · exact le_foldl_max _ _ _ (List.mem_cons_self _ _)
          · exact le_foldl_max _ _ _
              (List.mem_cons_of_mem _
                (List.mem_map_of_mem (fun y => assign_fire_confidence (y i j)) hx'))
  · intro i j
    unfold collectionMean at hv
    split_ifs at hv with he
    cases hv
    have hne : vl ≠ [] := by simpa [List.isEmpty_iff] using he
    have hlen : (vl.length : ℚ) ≠ 0 :=
      Nat.cast_ne_zero.mpr (List.length_pos.mpr hne).ne'
    show collectionSum vl i j / (vl.length : ℚ) * (vl.length : ℚ) = _
    rw [div_mul_cancel₀ _ hlen, collectionSum_apply]

/-- C4 witness: the theorem applied to concrete one-image series. -/
theorem C4_witness :
    collectionMax ([c4FireImg].map mapFireConfidence) = some c4R ∧
    collectionMean [c4VegImg] = some c4V ∧
    c4V 0 0 * (([c4VegImg] : List QImage).length : ℚ) =
      (([c4VegImg] : List QImage).map fun g => g 0 0).sum := by
  refine ⟨rfl, rfl, ?_⟩
  exact (C4_map_before_reduce [c4FireImg] [c4VegImg] c4R c4V rfl rfl).2.1 0 0

/-- C9: for every center with |latitude| < 89 degrees and positive half-side
length, the computed bounding box strictly brackets the center on both
axes. -/
theorem C9_bbox_brackets_center (lat lon half : ℝ)
    (hlat : |lat| < 89) (hhalf : 0 < half) :
    (compute_bbox lat lon half).lat_min < lat ∧
    lat < (compute_bbox lat lon half).lat_max ∧
    (compute_bbox lat lon half).lon_min < lon ∧
    lon < (compute_bbox lat lon half).lon_max := by
  have hpi := Real.pi_pos
  obtain ⟨h1, h2⟩ := abs_lt.mp hlat
  have hcos : 0 < Real.cos (lat * Real.pi / 180) := by
    apply Real.cos_pos_of_mem_Ioo
    constructor
    · have := mul_lt_mul_of_pos_right h1 hpi
      linarith
    · have := mul_lt_mul_of_pos_right h2 hpi
      linarith
  have h111 : (0 : ℝ) < 111.32 := by norm_num
  have hd1 : 0 < half / 111.32 := div_pos hhalf h111
  have hd2 : 0 < half / (111.32 * Real.cos (lat * Real.pi / 180)) :=
    div_pos hhalf (mul_pos h111 hcos)
  refine ⟨?_, ?_, ?_, ?_⟩ <;> simp only [compute_bbox] <;> linarith

/-- C9 witness: the theorem applied to the concrete center (43, -79) with
half-side 175 km. -/
theorem C9_witness :
    |(43 : ℝ)| < 89 ∧ (0 : ℝ) < 175 ∧
    (compute_bbox 43 (-79) 175).lat_min < 43 := by
  refine ⟨?_, by norm_num, ?_⟩
  · rw [abs_of_nonneg (by norm_num : (0 : ℝ) ≤ 43)]; norm_num
  · exact (C9_bbox_brackets_center 43 (-79) 175
      (by rw [abs_of_nonneg (by norm_num : (0 : ℝ) ≤ 43)]; norm_num)
      (by norm_num)).1

theorem unitVals_sampleRect {img : QImage} (himg : ∀ i j, unitVals (img i j))
    (h w : ℕ) (valid : ℕ → ℕ → Bool) :
    ∀ row ∈ sampleRect img h w valid, ∀ x ∈ row, unitVals x := by
  intro row hrow x hx
  simp only [sampleRect, List.mem_map, List.mem_range] at hrow
  obtain ⟨i, -, rfl⟩ := hrow
  simp only [List.mem_map, List.mem_range] at hx
  obtain ⟨j, -, rfl⟩ := hx
  split_ifs
  · exact himg i j
  · exact Or.inl rfl

theorem unitVals_np_resize {a : Grid2}
    (ha : ∀ row ∈ a, ∀ x ∈ row, unitVals x) (h w : ℕ) :
    ∀ row ∈ np_resize a h w, ∀ x ∈ row, unitVals x := by
  intro row hrow x hx
  simp only [np_resize, List.mem_map, List.mem_range] at hrow
  obtain ⟨i, -, rfl⟩ := hrow
  simp only [List.mem_map, List.mem_range] at hx
  obtain ⟨j, -, rfl⟩ := hx
  split_ifs with hempty
  · exact Or.inl rfl
  · have hne : a.flatten ≠ [] := by simpa [List.isEmpty_iff] using hempty
    have hlen : 0 < a.flatten.length := List.length_pos.mpr hne
    have hidx : (i * w + j) % a.flatten.length < a.flatten.length :=
      Nat.mod_lt _ hlen
    rw [List.getD_eq_getElem _ _ hidx]
    obtain ⟨r0, hr0, hxr0⟩ := List.mem_flatten.mp (List.getElem_mem hidx)
    exact ha r0 hr0 _ hxr0

theorem unitVals_ensure_shape {a : Grid2}
    (ha : ∀ row ∈ a, ∀ x ∈ row, unitVals x) :
    ∀ row ∈ ensure_shape a, ∀ x ∈ row, unitVals x := by
  unfold ensure_shape
  split_ifs
  · exact ha
  · exact unitVals_np_resize ha 350 350

theorem addAxis_getD_row (g : Grid2) (i : ℕ) :
    (addAxis g).getD i [] = (g.getD i []).map fun v => [v] := by
  unfold addAxis
  by_cases h : i < g.length
  · have h1 : i < (g.map fun row => row.map fun v => [v]).length := by
      simpa using h
    rw [List.getD_eq_getElem _ _ h1, List.getElem_map,
      List.getD_eq_getElem g [] h]
  · have h1 : (g.map fun row => row.map fun v => [v]).length ≤ i := by
      simpa using le_of_not_lt h
    rw [List.getD_eq_default _ _ h1, List.getD_eq_default g [] (le_of_not_lt h)]
    rfl

theorem cellAt_addAxis (g : Grid2) (i j k : ℕ) :
    cellAt (addAxis g) i j k = if k = 0 then entryAt g i j else 0 := by
  unfold cellAt entryAt
  rw [addAxis_getD_row]
  by_cases hj : j < (g.getD i []).length
  · have h1 : j < ((g.getD i []).map fun v => [v]).length := by simpa using hj
    rw [List.getD_eq_getElem _ _ h1, List.getElem_map,
      List.getD_eq_getElem _ _ hj]
    cases k with
    | zero => simp
    | succ k2 => simp
  · have h1 : ((g.getD i []).map fun v => [v]).length ≤ j := by
      simpa using le_of_not_lt hj
    rw [List.getD_eq_default _ _ h1, List.getD_eq_default _ _ (le_of_not_lt hj)]
    split_ifs <;> simp

theorem unitVals_cellAt_addAxis {g : Grid2}
    (hg : ∀ row ∈ g, ∀ x ∈ row, unitVals x) (i j k : ℕ) :
    unitVals (cellAt (addAxis g) i j k) := by
  rw [cellAt_addAxis]
  split_ifs
  · unfold entryAt
    by_cases hi : i < g.length
    · rw [List.getD_eq_getElem g [] hi]
      by_cases hj : j < g[i].length
      · rw [List.getD_eq_getElem _ _ hj]
        exact hg _ (List.getElem_mem hi) _ (List.getElem_mem hj)
      · rw [List.getD_eq_default _ _ (le_of_not_lt hj)]
        exact Or.inl rfl
    · rw [List.getD_eq_default g [] (le_of_not_lt hi)]
      exact Or.inl (by simp)
  · exact Or.inl rfl

theorem unitVals_collectionMax_fire {fl : List NImage} {r : QImage}
    (hr : collectionMax (fl.map mapFireConfidence) = some r) :
    ∀ i j, unitVals (r i j) := by
  intro i j
  cases fl with
  | nil => simp [collectionMax] at hr
  | cons g gs =>
      simp only [List.map_cons, collectionMax, Option.some.injEq] at hr
      subst hr
      rw [collectionMax_fire_apply]
      rcases List.mem_cons.mp (foldl_max_mem (assign_fire_confidence (g i j))
        (gs.map fun x => assign_fire_confidence (x i j))) with h | h
      · rw [h]; exact assign_mem_unitVals _
      · obtain ⟨x, -, heq⟩ := List.mem_map.mp h
        rw [← heq]; exact assign_mem_unitVals _

theorem channel_getD_row (t : Tensor3) (k i : ℕ) :
    (channel t k).getD i [] = (t.getD i []).map fun cell => cell.getD k 0 := by
  unfold channel
  by_cases h : i < t.length
  · have h1 : i < (t.map fun row => row.map fun cell => cell.getD k 0).length := by
      simpa using h
    rw [List.getD_eq_getElem _ _ h1, List.getElem_map,
      List.getD_eq_getElem t [] h]
  · have h1 : (t.map fun row => row.map fun cell => cell.getD k 0).length ≤ i := by
      simpa using le_of_not_lt h
    rw [List.getD_eq_default _ _ h1, List.getD_eq_default t [] (le_of_not_lt h)]
    rfl

theorem entryAt_channel (t : Tensor3) (k i j : ℕ) :
    entryAt (channel t k) i j = cellAt t i j k := by
  unfold entryAt cellAt
  rw [channel_getD_row]
  by_cases hj : j < (t.getD i []).length
  · have h1 : j < ((t.getD i []).map fun cell => cell.getD k 0).length := by
      simpa using hj
    rw [List.getD_eq_getElem _ _ h1, List.getElem_map,
      List.getD_eq_getElem _ _ hj]
  · have h1 : ((t.getD i []).map fun cell => cell.getD k 0).length ≤ j := by
      simpa using le_of_not_lt hj
    rw [List.getD_eq_default _ _ h1, List.getD_eq_default _ _ (le_of_not_lt hj)]
    simp

/-- C10: every cell of the reduced fire-confidence tensor lies in the finite
set of mapped weights, hence in the unit interval, and this value flows
unchanged into channel 1 of the fused tensor (the label channel); the
invariant survives max-reduction, default filling with 0, and the
shape-correcting resize. -/
theorem C10_fire_values_unit (fr : FireRemote) (t : Tensor3)
    (ht : fire_pipeline fr = some t) :
    (∀ i j k, unitVals (cellAt t i j k)) ∧
    (∀ i j k, 0 ≤ cellAt t i j k ∧ cellAt t i j k ≤ 1) ∧
    (∀ vt, hasShape3 vt 350 350 1 → ∀ i j,
      entryAt (channel (concat_tensors t (resize_tensor vt)) 1) i j =
        cellAt t i j 0) := by
  have hshape : hasShape3 t 350 350 1 := by
    unfold fire_pipeline at ht
    cases hm : collectionMax (fr.collection.map mapFireConfidence) with
    | none => rw [hm] at ht; exact absurd ht (by simp)
    | some reduced =>
        rw [hm] at ht
        cases ht
        exact hasShape3_addAxis (hasShape2_ensure_shape _)
  have hvals : ∀ i j k, unitVals (cellAt t i j k) := by
    unfold fire_pipeline at ht
    cases hm : collectionMax (fr.collection.map mapFireConfidence) with
    | none => rw [hm] at ht; exact absurd ht (by simp)
    | some reduced =>
        rw [hm] at ht
        cases ht
        exact unitVals_cellAt_addAxis
          (unitVals_ensure_shape
            (unitVals_sampleRect (unitVals_collectionMax_fire hm) _ _ _))
  refine ⟨hvals, ?_, ?_⟩
  · intro i j k
    rcases hvals i j k with h | h | h <;> rw [h] <;> norm_num
  · intro vt hvt i j
    have hch : channel (concat_tensors t (resize_tensor vt)) 1 = channel t 0 := by
      simpa using channel_concat_add hshape (hasShape3_resize_of_single hvt) 0
    rw [hch, entryAt_channel]

/-- C10 witness: the theorem applied to a concrete one-image series of
code-4 cells. -/
theorem C10_witness :
    fire_pipeline c10Fire = some c10T ∧ unitVals (cellAt c10T 0 0 0) := by
  refine ⟨rfl, ?_⟩
  exact (C10_fire_values_unit c10Fire c10T rfl).1 0 0 0

end Wildfire
